import Mathlib

/-!
Verification of the InstrumentKit `util_fns.py` module: SCPI property
factories (`bool_property`, `enum_property`, `unitless_property`,
`int_property`, `unitful_property`, `string_property`), the unit-coercion
helper `assume_units`, and the `ProxyList` indexed proxy collection.

The embedding mirrors the Python source shallowly:
* transport calls (`self.query`, `self.sendcmd`) are recorded as an explicit
  trace of `Call` values; a getter is a function of the (single) query
  response, a setter returns the list of transport calls it issues;
* Python exceptions become `Except`/`Option` results; an error result is
  produced before any transport call is recorded, exactly as the source
  raises before calling `sendcmd`;
* Python `str.strip()` is `pyStrip` (drop whitespace from both ends);
* Python `float(...)`/`int(...)` are whitespace-tolerant parsers
  `pyFloat`/`pyInt` over exact rationals/integers (floats are modelled by
  exact rationals; `inf`/`nan` literals are not modelled);
* the `'{:e}'`/`'{:d}'` format codes are modelled by exact decimal
  scientific/integer renderers (`fmtMag`, `fmtD`); the 6-digit rounding of
  CPython's `'{:e}'` is idealised away, matching the spec's
  "within floating-point tolerance" reading;
* `quantities.Quantity` is a magnitude paired with a unit; a unit is a
  dimension tag plus a positive rational scale, and `rescale` converts
  between units of equal dimension (external `quantities` library
  behaviour, modelled from the spec);
* `flufl.enum` classes are modelled as a member list plus an abstract
  `getitem` lookup (name/value resolution, `none` = the `ValueError` the
  source catches) and a list of direct base classes, mirroring the
  `__bases__` check in `ProxyList.__init__` (external `flufl.enum`
  behaviour, modelled from the spec).
-/

namespace InstrumentKit

/-- One transport primitive invocation, as seen by the instrument object. -/
inductive Call where
  | query : String → Call
  | sendcmd : String → Call
deriving DecidableEq, Repr

/-- Error taxonomy of the module (spec section 7). `validationError` is the
`ValueError` raised by the bounded `int_property` setter; `outOfRange` is the
`IndexError` raised by `ProxyList.__getitem__`. -/
inductive PropError where
  | validationError : String → PropError
  | invalidValue : PropError
  | formatError : PropError
  | unitMismatch : PropError
  | outOfRange : String → PropError
deriving DecidableEq, Repr

/-! ## Python `str.strip` -/

/-- Model of Python `str.strip()` on the character list of a string. -/
def pyStrip (cs : List Char) : List Char :=
  ((cs.dropWhile Char.isWhitespace).reverse.dropWhile Char.isWhitespace).reverse

/-- Model of Python `str.strip()` on strings. -/
def pyStripS (s : String) : String :=
  ⟨pyStrip s.data⟩

lemma dropWhile_of_all_false {p : Char → Bool} :
    ∀ {l : List Char}, (∀ c ∈ l, p c = false) → l.dropWhile p = l := by
  intro l h
  cases l with
  | nil => rfl
  | cons a t => simp [List.dropWhile, h a (by simp)]

lemma dropWhile_of_all_true {p : Char → Bool} :
    ∀ {l : List Char}, (∀ c ∈ l, p c = true) → l.dropWhile p = [] := by
  intro l h
  induction l with
  | nil => rfl
  | cons a t ih =>
    simp only [List.dropWhile, h a (by simp)]
    exact ih (fun c hc => h c (by simp [hc]))

lemma dropWhile_append_of_all_true {p : Char → Bool} :
    ∀ {l : List Char} (r : List Char), (∀ c ∈ l, p c = true) →
      (l ++ r).dropWhile p = r.dropWhile p := by
  intro l
  induction l with
  | nil => intro r _; rfl
  | cons a t ih =>
    intro r h
    simp only [List.cons_append, List.dropWhile, h a (by simp)]
    exact ih r (fun c hc => h c (by simp [hc]))

lemma dropWhile_append_of_eq_nil {p : Char → Bool} :
    ∀ {l : List Char} (r : List Char), l.dropWhile p = [] →
      (l ++ r).dropWhile p = r.dropWhile p := by
  intro l
  induction l with
  | nil => intro r _; rfl
  | cons a t ih =>
    intro r h
    cases hpa : p a with
    | true =>
      simp only [List.dropWhile, hpa] at h
      simp only [List.cons_append, List.dropWhile, hpa]
      exact ih r h
    | false => simp [List.dropWhile, hpa] at h

lemma dropWhile_append_of_eq_cons {p : Char → Bool} :
    ∀ {l : List Char} (r a : _) (t : List Char), l.dropWhile p = a :: t →
      (l ++ r).dropWhile p = a :: (t ++ r) := by
  intro l
  induction l with
  | nil => intro r a t h; simp [List.dropWhile] at h
  | cons b u ih =>
    intro r a t h
    cases hpb : p b with
    | true =>
      simp only [List.dropWhile, hpb] at h
      simp only [List.cons_append, List.dropWhile, hpb]
      exact ih r a t h
    | false =>
      simp only [List.dropWhile, hpb] at h
      simp only [List.cons_append, List.dropWhile, hpb]
      injection h with h1 h2
      simp [h1, h2]

/-- Stripping leaves a string with no surrounding-whitespace context
unchanged. -/
lemma pyStrip_of_no_ws {cs : List Char} (h : ∀ c ∈ cs, c.isWhitespace = false) :
    pyStrip cs = cs := by
  unfold pyStrip
  rw [dropWhile_of_all_false h,
    dropWhile_of_all_false (fun c hc => h c (List.mem_reverse.mp hc)),
    List.reverse_reverse]

/-- Python `strip` erases any all-whitespace padding around a string. -/
lemma pyStrip_pad (pre cs post : List Char)
    (h1 : ∀ c ∈ pre, c.isWhitespace = true)
    (h2 : ∀ c ∈ post, c.isWhitespace = true) :
    pyStrip (pre ++ cs ++ post) = pyStrip cs := by
  unfold pyStrip
  rw [List.append_assoc, dropWhile_append_of_all_true (cs ++ post) h1]
  cases hd : cs.dropWhile Char.isWhitespace with
  | nil =>
    have hpost : post.dropWhile Char.isWhitespace = [] := dropWhile_of_all_true h2
    rw [dropWhile_append_of_eq_nil post hd, hpost]
  | cons a t =>
    rw [dropWhile_append_of_eq_cons post a t hd]
    have : (a :: (t ++ post)).reverse = post.reverse ++ (a :: t).reverse := by
      simp
    rw [this,
      dropWhile_append_of_all_true ((a :: t).reverse)
        (fun c hc => h2 c (List.mem_reverse.mp hc))]

/-! ## Digits, numeric parsing (`float`/`int`) and formatting (`'{:e}'`/`'{:d}'`) -/

/-- Numeric value of a decimal digit character. -/
def charToDigit (c : Char) : ℕ := c.toNat - 48

/-- Value of a big-endian list of decimal digit characters. -/
def digitsToNat (cs : List Char) : ℕ :=
  Nat.ofDigits 10 ((cs.map charToDigit).reverse)

/-- Big-endian decimal digit characters of a natural number. -/
def natToDigits (n : ℕ) : List Char :=
  if n = 0 then ['0'] else ((Nat.digits 10 n).map Nat.digitChar).reverse

lemma charToDigit_digitChar (d : ℕ) (hd : d < 10) :
    charToDigit (Nat.digitChar d) = d := by
  interval_cases d <;> rfl

lemma digitChar_isDigit (d : ℕ) (hd : d < 10) :
    (Nat.digitChar d).isDigit = true := by
  interval_cases d <;> rfl

lemma digitsToNat_natToDigits (n : ℕ) : digitsToNat (natToDigits n) = n := by
  unfold natToDigits
  by_cases h0 : n = 0
  · subst h0; decide
  · rw [if_neg h0]
    unfold digitsToNat
    rw [List.map_reverse, List.reverse_reverse, List.map_map]
    have : (Nat.digits 10 n).map (charToDigit ∘ Nat.digitChar) = Nat.digits 10 n := by
      conv_rhs => rw [← List.map_id (Nat.digits 10 n)]
      apply List.map_congr_left
      intro d hd
      exact charToDigit_digitChar d (Nat.digits_lt_base (by norm_num) hd)
    rw [this, Nat.ofDigits_digits]

lemma natToDigits_ne_nil (n : ℕ) : natToDigits n ≠ [] := by
  unfold natToDigits
  by_cases h0 : n = 0
  · simp [h0]
  · rw [if_neg h0]
    simp [Nat.digits_ne_nil_iff_ne_zero.mpr h0]

lemma natToDigits_all_digit (n : ℕ) : ∀ c ∈ natToDigits n, c.isDigit = true := by
  intro c hc
  unfold natToDigits at hc
  by_cases h0 : n = 0
  · rw [if_pos h0] at hc
    simp at hc
    subst hc; rfl
  · rw [if_neg h0] at hc
    rw [List.mem_reverse] at hc
    obtain ⟨d, hd, rfl⟩ := List.mem_map.mp hc
    exact digitChar_isDigit d (Nat.digits_lt_base (by norm_num) hd)

lemma isDigit_not_isWhitespace (c : Char) (h : c.isDigit = true) :
    c.isWhitespace = false := by
  cases hw : c.isWhitespace with
  | false => rfl
  | true =>
    exfalso
    have hc : ((c = ' ' ∨ c = '\t') ∨ c = '\r') ∨ c = '\n' := by
      simpa [Char.isWhitespace] using hw
    rcases hc with ((rfl | rfl) | rfl) | rfl <;> simp [Char.isDigit] at h

lemma isDigit_ne_signs (c : Char) (h : c.isDigit = true) :
    c ≠ '-' ∧ c ≠ '+' ∧ c ≠ '.' ∧ c ≠ 'e' ∧ c ≠ 'E' := by
  refine ⟨?_, ?_, ?_, ?_, ?_⟩ <;> rintro rfl <;> simp [Char.isDigit] at h

/-- Leading optional sign of a numeric literal: a true flag means a leading
minus sign was consumed. -/
def splitSign (cs : List Char) : Bool × List Char :=
  if cs.head? = some '-' then (true, cs.tail)
  else if cs.head? = some '+' then (false, cs.tail)
  else (false, cs)

/-- Optional exponent suffix of a `float` literal (empty means exponent 0). -/
def parseExpPart (cs : List Char) : Option ℤ :=
  if cs = [] then some 0
  else if cs.head? = some 'e' ∨ cs.head? = some 'E' then
    let p := splitSign cs.tail
    let eds := p.2.takeWhile Char.isDigit
    if eds = [] ∨ p.2.dropWhile Char.isDigit ≠ [] then none
    else some (if p.1 then -(digitsToNat eds : ℤ) else (digitsToNat eds : ℤ))
  else none

/-- Core of Python `float(...)` on an already-stripped character list:
optional sign, integer digits, optional fractional part, optional exponent.
(`inf`/`nan` literals are not modelled.) -/
def parseFloatCore (cs : List Char) : Option ℚ :=
  let p := splitSign cs
  let ip := p.2.takeWhile Char.isDigit
  let rest1 := p.2.dropWhile Char.isDigit
  let fp := if rest1.head? = some '.' then rest1.tail.takeWhile Char.isDigit else []
  let rest2 := if rest1.head? = some '.' then rest1.tail.dropWhile Char.isDigit else rest1
  if ip = [] ∧ fp = [] then none
  else
    match parseExpPart rest2 with
    | none => none
    | some ex =>
      let mag : ℚ := ((digitsToNat ip : ℚ) + (digitsToNat fp : ℚ) / 10 ^ fp.length) * (10 : ℚ) ^ ex
      some (if p.1 then -mag else mag)

/-- Core of Python `int(...)` on an already-stripped character list. -/
def parseIntCore (cs : List Char) : Option ℤ :=
  let p := splitSign cs
  let ds := p.2.takeWhile Char.isDigit
  if ds = [] ∨ p.2.dropWhile Char.isDigit ≠ [] then none
  else some (if p.1 then -(digitsToNat ds : ℤ) else (digitsToNat ds : ℤ))

/-- Python `float(raw)`: strips surrounding whitespace, then parses. -/
def pyFloat (s : String) : Option ℚ :=
  parseFloatCore (pyStrip s.data)

/-- Python `int(raw)`: strips surrounding whitespace, then parses. -/
def pyInt (s : String) : Option ℤ :=
  parseIntCore (pyStrip s.data)

/-- Exact scientific rendering of `m * 10 ^ (-k)`: the model of
`'{:e}'.format` (CPython's rounding to 6 fractional digits is idealised to
an exact rendering). -/
def formatE (m : ℤ) (k : ℕ) : String :=
  ⟨(if m < 0 then ['-'] else []) ++ natToDigits m.natAbs ++ 'e' :: '-' :: natToDigits k⟩

/-- The model of `'{:d}'.format` on an integer. -/
def fmtD (n : ℤ) : String :=
  ⟨(if n < 0 then ['-'] else []) ++ natToDigits n.natAbs⟩

lemma takeWhile_of_all_true {p : Char → Bool} :
    ∀ {l : List Char}, (∀ c ∈ l, p c = true) → l.takeWhile p = l := by
  intro l h
  induction l with
  | nil => rfl
  | cons a t ih =>
    simp only [List.takeWhile, h a (by simp)]
    rw [ih (fun c hc => h c (by simp [hc]))]

lemma takeWhile_append_cons {p : Char → Bool} :
    ∀ {l : List Char} (x : Char) (r : List Char), (∀ c ∈ l, p c = true) →
      p x = false →
      (l ++ x :: r).takeWhile p = l ∧ (l ++ x :: r).dropWhile p = x :: r := by
  intro l
  induction l with
  | nil =>
    intro x r _ hx
    constructor <;> simp [List.takeWhile, List.dropWhile, hx]
  | cons a t ih =>
    intro x r h hx
    have ha := h a (by simp)
    have := ih x r (fun c hc => h c (by simp [hc])) hx
    constructor
    · simp only [List.cons_append, List.takeWhile, ha]
      exact congrArg (List.cons a) this.1
    · simp only [List.cons_append, List.dropWhile, ha]
      exact this.2

lemma splitSign_of_digit_head (d : Char) (t : List Char) (hd : d.isDigit = true) :
    splitSign (d :: t) = (false, d :: t) := by
  obtain ⟨h1, h2, -⟩ := isDigit_ne_signs d hd
  unfold splitSign
  rw [if_neg (by simp [h1]), if_neg (by simp [h2])]

/-- Evaluation of the float parser on an exact scientific literal
`D e- K` with digit blocks `D` and `K`, in unsigned and signed form. -/
lemma parseFloatCore_sci (D K : List Char) (hD : D ≠ [])
    (hDd : ∀ c ∈ D, c.isDigit = true) (hK : K ≠ [])
    (hKd : ∀ c ∈ K, c.isDigit = true) :
    parseFloatCore (D ++ 'e' :: '-' :: K) =
      some ((digitsToNat D : ℚ) * (10 : ℚ) ^ (-(digitsToNat K : ℤ))) ∧
    parseFloatCore ('-' :: (D ++ 'e' :: '-' :: K)) =
      some (-((digitsToNat D : ℚ) * (10 : ℚ) ^ (-(digitsToNat K : ℤ)))) := by
  obtain ⟨d0, D', rfl⟩ : ∃ d0 D', D = d0 :: D' := by
    cases D with
    | nil => exact absurd rfl hD
    | cons a t => exact ⟨a, t, rfl⟩
  set D := d0 :: D' with hDdef
  have hsplit := takeWhile_append_cons (l := D) 'e' ('-' :: K) hDd (by rfl)
  have hexp : parseExpPart ('e' :: '-' :: K) = some (-(digitsToNat K : ℤ)) := by
    unfold parseExpPart
    rw [if_neg (by simp), if_pos (by simp)]
    have hss : splitSign ('-' :: K) = (true, K) := by
      simp [splitSign]
    simp only [List.tail_cons, hss]
    rw [takeWhile_of_all_true hKd, dropWhile_of_all_true hKd,
      if_neg (by simp [hK])]
    simp
  have main : ∀ (sg : Bool) (tail0 : List Char),
      splitSign tail0 = (sg, D ++ 'e' :: '-' :: K) →
      parseFloatCore tail0 =
        some (if sg then
            -((digitsToNat D : ℚ) * (10 : ℚ) ^ (-(digitsToNat K : ℤ)))
          else ((digitsToNat D : ℚ) * (10 : ℚ) ^ (-(digitsToNat K : ℤ)))) := by
    intro sg tail0 hsg
    unfold parseFloatCore
    rw [hsg]
    simp only
    rw [hsplit.1, hsplit.2]
    rw [if_neg (by simp), if_neg (by simp), if_neg (by simp [hDdef]), hexp]
    simp only [digitsToNat, List.map_nil, List.reverse_nil, Nat.ofDigits_nil,
      List.length_nil, pow_zero, Nat.cast_zero, zero_div, add_zero]
  constructor
  · have := main false (D ++ 'e' :: '-' :: K)
      (splitSign_of_digit_head d0 (D' ++ 'e' :: '-' :: K)
        (hDd d0 (by rw [hDdef]; exact List.mem_cons_self d0 D')))
    simpa using this
  · have := main true ('-' :: (D ++ 'e' :: '-' :: K)) (by simp [splitSign])
    simpa using this

/-- The characters emitted by `formatE` contain no whitespace. -/
lemma formatE_no_ws (m : ℤ) (k : ℕ) :
    ∀ c ∈ (formatE m k).data, c.isWhitespace = false := by
  intro c hc
  unfold formatE at hc
  simp only [List.append_assoc, List.mem_append, List.mem_cons] at hc
  rcases hc with hc | hc | hc
  · by_cases hm : m < 0 <;> simp [hm] at hc
    rw [hc]; rfl
  · exact isDigit_not_isWhitespace c (natToDigits_all_digit m.natAbs c hc)
  · rcases hc with rfl | rfl | hc
    · rfl
    · rfl
    · exact isDigit_not_isWhitespace c (natToDigits_all_digit k c hc)

/-- Python `float` inverts the exact scientific formatter. -/
lemma pyFloat_formatE (m : ℤ) (k : ℕ) :
    pyFloat (formatE m k) = some ((m : ℚ) * (10 : ℚ) ^ (-(k : ℤ))) := by
  have hstrip : pyStrip (formatE m k).data = (formatE m k).data :=
    pyStrip_of_no_ws (formatE_no_ws m k)
  unfold pyFloat
  rw [hstrip]
  have hsci := parseFloatCore_sci (natToDigits m.natAbs) (natToDigits k)
    (natToDigits_ne_nil _) (natToDigits_all_digit _) (natToDigits_ne_nil _)
    (natToDigits_all_digit _)
  rw [digitsToNat_natToDigits, digitsToNat_natToDigits] at hsci
  by_cases hm : m < 0
  · have hdata : (formatE m k).data =
        '-' :: (natToDigits m.natAbs ++ 'e' :: '-' :: natToDigits k) := by
      unfold formatE
      rw [if_pos hm]
      rfl
    rw [hdata, hsci.2]
    congr 1
    have habs : ((m.natAbs : ℚ)) = -(m : ℚ) := by
      rw [Int.cast_natAbs, abs_of_neg hm, Int.cast_neg]
    rw [habs]
    ring
  · have hdata : (formatE m k).data =
        natToDigits m.natAbs ++ 'e' :: '-' :: natToDigits k := by
      unfold formatE
      rw [if_neg hm]
      rfl
    rw [hdata, hsci.1]
    congr 1
    have habs : ((m.natAbs : ℚ)) = (m : ℚ) := by
      rw [Int.cast_natAbs, abs_of_nonneg (not_lt.mp hm)]
    rw [habs]

/-- A divisor of some power of ten divides the power of ten with exponent
equal to itself. -/
lemma dvd_ten_pow_self (d : ℕ) (hd : 0 < d) {k : ℕ} (hk : d ∣ 10 ^ k) :
    d ∣ 10 ^ d := by
  induction d using Nat.strong_induction_on with
  | _ d ih =>
    rcases eq_or_ne d 1 with rfl | h1
    · exact one_dvd _
    obtain ⟨p, hp, hpd⟩ := Nat.exists_prime_and_dvd h1
    have hp10 : p ∣ 10 := hp.dvd_of_dvd_pow (hpd.trans hk)
    have hp0 : 0 < p := hp.pos
    have hdp : d / p ∣ 10 ^ k := (Nat.div_dvd_of_dvd hpd).trans hk
    have hdplt : d / p < d := Nat.div_lt_self hd hp.one_lt
    have hdp0 : 0 < d / p := Nat.div_pos (Nat.le_of_dvd hd hpd) hp0
    have ihres : d / p ∣ 10 ^ (d / p) := ih (d / p) hdplt hdp0 hdp
    have hmul : d = p * (d / p) := (Nat.mul_div_cancel' hpd).symm
    have : p * (d / p) ∣ 10 * 10 ^ (d / p) := mul_dvd_mul hp10 ihres
    rw [← hmul] at this
    refine this.trans ?_
    rw [← pow_succ']
    exact pow_dvd_pow 10 (by omega)

/-- Smallest exponent `j ≤ den` with `den ∣ 10 ^ j`, when one exists. -/
def decScale (den : ℕ) : Option ℕ :=
  (List.range (den + 1)).find? (fun j => 10 ^ j % den == 0)

/-- Exact rendering of a rational magnitude in the scientific shape produced
by `'{:e}'.format`: for a magnitude whose reduced denominator divides a power
of ten (every Python float does), the digits are exact. -/
def fmtMag (q : ℚ) : String :=
  match decScale q.den with
  | some j => formatE (q.num * ((10 ^ j : ℤ) / (q.den : ℤ))) j
  | none => formatE q.num 0

/-- Python `float` recovers a decimal rational exactly from `fmtMag`. -/
lemma pyFloat_fmtMag (q : ℚ) (hq : ∃ j, (q.den : ℕ) ∣ 10 ^ j) :
    pyFloat (fmtMag q) = some q := by
  obtain ⟨j, hj⟩ := hq
  have hden0 : 0 < q.den := q.pos
  have hself : q.den ∣ 10 ^ q.den := dvd_ten_pow_self q.den hden0 hj
  have hfound : (decScale q.den).isSome = true := by
    unfold decScale
    rw [List.find?_isSome]
    refine ⟨q.den, by simp, ?_⟩
    simpa using Nat.mod_eq_zero_of_dvd hself
  obtain ⟨j0, hj0⟩ := Option.isSome_iff_exists.mp hfound
  have hj0' : (List.range (q.den + 1)).find? (fun j => 10 ^ j % q.den == 0)
      = some j0 := by simpa [decScale] using hj0
  have hpred := List.find?_some hj0'
  have hdvd : q.den ∣ 10 ^ j0 := Nat.dvd_of_mod_eq_zero (by simpa using hpred)
  have hfm : fmtMag q = formatE (q.num * ((10 ^ j0 : ℤ) / (q.den : ℤ))) j0 := by
    unfold fmtMag
    rw [hj0]
  rw [hfm, pyFloat_formatE]
  congr 1
  have hdvdz : ((q.den : ℤ)) ∣ (10 : ℤ) ^ j0 := by
    exact_mod_cast Int.natCast_dvd_natCast.mpr hdvd
  obtain ⟨c, hc⟩ := hdvdz
  have hdenz : ((q.den : ℤ)) ≠ 0 := by positivity
  have hquot : ((10 : ℤ) ^ j0) / (q.den : ℤ) = c := by
    rw [hc]
    exact Int.mul_ediv_cancel_left c hdenz
  rw [hquot]
  have hc0 : (c : ℚ) ≠ 0 := by
    have hcz : c ≠ 0 := by
      intro h0
      rw [h0, mul_zero] at hc
      exact absurd hc (pow_ne_zero j0 (by norm_num))
    exact_mod_cast hcz
  have hdenQ : ((q.den : ℚ)) ≠ 0 := Nat.cast_ne_zero.mpr hden0.ne'
  have hpow : ((10 : ℚ)) ^ (-(j0 : ℤ)) = ((10 : ℚ) ^ j0)⁻¹ := by
    rw [zpow_neg, zpow_natCast]
  have hten : ((10 : ℚ)) ^ j0 = (q.den : ℚ) * (c : ℚ) := by
    have := congrArg (fun z : ℤ => (z : ℚ)) hc
    push_cast at this
    simpa using this
  rw [hpow, hten]
  push_cast
  rw [← div_eq_mul_inv, div_eq_iff (mul_ne_zero hdenQ hc0)]
  have hqden : q * (q.den : ℚ) = (q.num : ℚ) := by
    have h := Rat.num_div_den q
    calc q * ((q.den : ℚ))
        = ((q.num : ℚ) / (q.den : ℚ)) * ((q.den : ℚ)) := by rw [h]
      _ = ((q.num : ℚ)) := div_mul_cancel₀ _ hdenQ
  calc ((q.num : ℚ)) * (c : ℚ) = q * (q.den : ℚ) * (c : ℚ) := by rw [hqden]
    _ = q * ((q.den : ℚ) * (c : ℚ)) := by ring

/-! ## Units model (`quantities` library, modelled from the spec) -/

/-- A physical unit: a dimension tag plus a positive conversion scale to the
dimension's base unit. -/
structure PhysUnit where
  dim : ℕ
  scale : ℚ
  scale_pos : 0 < scale

/-- A unitful quantity: a magnitude paired with a unit (`pq.Quantity`). -/
structure Quantity where
  mag : ℚ
  unit : PhysUnit

/-- A value handed to `assume_units`: either a raw number or an
already-tagged quantity. -/
inductive Value where
  | raw : ℚ → Value
  | qty : Quantity → Value

/-- `assume_units(value, units)` from the source: tag a raw number with the
default unit, pass a tagged quantity through unchanged. -/
def assume_units (value : Value) (units : PhysUnit) : Quantity :=
  match value with
  | .raw x => ⟨x, units⟩
  | .qty q => q

/-- `Quantity.rescale` of the `quantities` library, modelled from the spec:
convert to a unit of the same dimension, fail (`UnitMismatch`) otherwise. -/
def rescale (q : Quantity) (u : PhysUnit) : Option Quantity :=
  if q.unit.dim = u.dim then some ⟨q.mag * q.unit.scale / u.scale, u⟩ else none

/-! ## Property factories

Each getter is modelled as a function of the single query response it
receives, returning the decoded value paired with the transport-call trace;
each setter returns the trace of calls it issues (wrapped in
`Except`/`Option` when the source can raise before sending). -/

/-- Decode of `bool_property`'s getter: strip the response, compare with the
`inst_true` literal. -/
def bool_property_decode (inst_true resp : String) : Bool :=
  pyStripS resp == inst_true

/-- Encode of `bool_property`'s setter: pick the `inst_true`/`inst_false`
literal. -/
def bool_property_encode (inst_true inst_false : String) (newval : Bool) : String :=
  if newval then inst_true else inst_false

/-- Getter produced by `bool_property name inst_true inst_false`. -/
def bool_property_getter (name inst_true resp : String) : Bool × List Call :=
  (bool_property_decode inst_true resp, [Call.query (name ++ "?")])

/-- Setter produced by `bool_property name inst_true inst_false`. -/
def bool_property_setter (name inst_true inst_false : String) (newval : Bool) :
    List Call :=
  [Call.sendcmd (name ++ " " ++ bool_property_encode inst_true inst_false newval)]

/-- A `flufl.enum` class as used by `enum_property`: a closed list of
variants, each with a wire string (`.value`). Wire values are unique
(`flufl.enum` rejects duplicate values), which `value_inj` records. -/
structure EnumSpec (V : Type) where
  variants : List V
  value : V → String
  value_inj : ∀ a ∈ variants, ∀ b ∈ variants, value a = value b → a = b

/-- `enum[s]` lookup by wire value: first variant whose value is `s`. -/
def lookupByValue {V : Type} (E : EnumSpec V) (s : String) : Option V :=
  E.variants.find? (fun v => E.value v == s)

/-- An optional decoration function applied as in the source:
identity when `None`. -/
def decor (d : Option (String → String)) (s : String) : String :=
  match d with
  | none => s
  | some f => f s

/-- Decode of `enum_property`'s getter: strip, apply the input decoration,
look up the wire value (`none` models the lookup error). -/
def enumDecode {V : Type} (E : EnumSpec V) (input_decoration : Option (String → String))
    (resp : String) : Option V :=
  lookupByValue E (decor input_decoration (pyStripS resp))

/-- Encode of `enum_property`'s setter on a variant: take its wire value and
apply the output decoration (`enum[newval]` on a variant is the variant). -/
def enumEncode {V : Type} (E : EnumSpec V) (output_decoration : Option (String → String))
    (e : V) : String :=
  decor output_decoration (E.value e)

/-- Getter produced by `enum_property`. -/
def enum_property_getter {V : Type} (E : EnumSpec V)
    (input_decoration : Option (String → String)) (name resp : String) :
    Option V × List Call :=
  (enumDecode E input_decoration resp, [Call.query (name ++ "?")])

/-- Setter produced by `enum_property`, applied to a variant. -/
def enum_property_setter {V : Type} (E : EnumSpec V)
    (output_decoration : Option (String → String)) (name : String) (e : V) :
    List Call :=
  [Call.sendcmd (name ++ " " ++ enumEncode E output_decoration e)]

/-- Getter produced by `unitless_property`: `float(raw)`. -/
def unitless_property_getter (name resp : String) : Option ℚ × List Call :=
  (pyFloat resp, [Call.query (name ++ "?")])

/-- Setter produced by `unitless_property` with the default `'{:e}'` format
code. -/
def unitless_property_setter (name : String) (newval : ℚ) : List Call :=
  [Call.sendcmd (name ++ " " ++ fmtMag newval)]

/-- Getter produced by `int_property`: `int(raw)`. -/
def int_property_getter (name resp : String) : Option ℤ × List Call :=
  (pyInt resp, [Call.query (name ++ "?")])

/-- Python `str` of the valid set, as interpolated into the error message. -/
def showIntSet (vs : List ℤ) : String :=
  "\x7b" ++ String.intercalate ", " (vs.map fmtD) ++ "\x7d"

/-- Setter produced by `int_property` with the default `'{:d}'` format code:
with a valid set, membership is checked BEFORE formatting and sending, and a
failure raises `ValueError` (the spec's ValidationError) carrying the
allowed set; an error therefore issues no transport call at all. -/
def int_property_setter (name : String) (valid_set : Option (List ℤ)) (newval : ℤ) :
    Except PropError (List Call) :=
  match valid_set with
  | none => .ok [Call.sendcmd (name ++ " " ++ fmtD newval)]
  | some vs =>
    if newval ∉ vs then
      .error (.validationError (fmtD newval ++
        " is not an allowed value for this property; must be one of " ++
        showIntSet vs ++ "."))
    else .ok [Call.sendcmd (name ++ " " ++ fmtD newval)]

/-- Getter produced by `unitful_property`: `float(raw) * units`. A parse
failure propagates as `none`. -/
def unitful_property_getter (name : String) (units : PhysUnit) (resp : String) :
    Option Quantity × List Call :=
  ((pyFloat resp).map (fun x => ⟨x, units⟩), [Call.query (name ++ "?")])

/-- Setter produced by `unitful_property`: coerce with `assume_units`,
rescale to the fixed unit (failing with UnitMismatch, modelled as `none`,
before any send), format the magnitude, send. -/
def unitful_property_setter (name : String) (units : PhysUnit) (newval : Value) :
    Option (List Call) :=
  (rescale (assume_units newval units) units).map
    (fun q => [Call.sendcmd (name ++ " " ++ fmtMag q.mag)])

/-- Encode part of the unitful setter (the token that gets sent). -/
def unitful_encode (newval : Value) (units : PhysUnit) : Option String :=
  (rescale (assume_units newval units) units).map (fun q => fmtMag q.mag)

/-- Decode part of the unitful getter. -/
def unitful_decode (resp : String) (units : PhysUnit) : Option Quantity :=
  (pyFloat resp).map (fun x => ⟨x, units⟩)

/-- Decode of `string_property`'s getter: Python
`string[bookmark_length:-bookmark_length]` on the raw (untrimmed!) response
when the bookmark is nonempty. -/
def string_property_decode (bookmark resp : String) : String :=
  if 0 < bookmark.length then
    ⟨(resp.data.take (resp.data.length - bookmark.length)).drop bookmark.length⟩
  else resp

/-- Getter produced by `string_property`. -/
def string_property_getter (name bookmark resp : String) : String × List Call :=
  (string_property_decode bookmark resp, [Call.query (name ++ "?")])

/-- Setter produced by `string_property`: wrap the value in the bookmark
symbol. -/
def string_property_setter (name bookmark newval : String) : List Call :=
  [Call.sendcmd (name ++ " " ++ (bookmark ++ newval ++ bookmark))]

/-! ## ProxyList -/

/-- A Python class appearing in a `__bases__` list: the `flufl.enum` bases
the source tests for, or any other class identified by name. -/
inductive PyClass where
  | enumBase
  | intEnumBase
  | otherClass (className : String)
deriving DecidableEq, Repr

/-- An index passed to `ProxyList.__getitem__`: a symbolic name string or a
domain value. -/
inductive Idx (V : Type) where
  | name : String → Idx V
  | val : V → Idx V
deriving DecidableEq, Repr

/-- The `valid_set` argument of `ProxyList`: its members in iteration order,
the `flufl.enum` `__getitem__` name/value lookup (`none` models the
`ValueError` the source catches; modelled from the spec's description of
enum normalization), the direct base classes (`none` models absence of a
`__bases__` attribute, i.e. a plain container), and its `str` rendering used
in the `IndexError` message. -/
structure ValidSet (V : Type) where
  members : List V
  getitem : Idx V → Option V
  bases : Option (List PyClass)
  descr : String

/-- `self._isenum` as computed by `ProxyList.__init__`: only the DIRECT
bases are inspected (the source's FIXME notes this). -/
def ValidSet.isenum {V : Type} (S : ValidSet V) : Bool :=
  match S.bases with
  | none => false
  | some bs => decide (PyClass.enumBase ∈ bs) || decide (PyClass.intEnumBase ∈ bs)

/-- Membership test `idx in self._valid_set`: only actual members pass; a
raw name string is never a member. -/
def ValidSet.memb {V : Type} [DecidableEq V] (S : ValidSet V) : Idx V → Bool
  | .val v => decide (v ∈ S.members)
  | .name _ => false

/-- The `ProxyList(parent, proxy_cls, valid_set)` object. -/
structure ProxyList (P V E : Type) where
  parent : P
  proxy_cls : P → Idx V → E
  valid_set : ValidSet V

/-- `ProxyList.__getitem__`: normalize through the enum lookup when the
domain is enum-shaped (falling back to the raw index when the lookup
raises), then check membership, then construct a fresh proxy. The
`IndexError` (OutOfRange) is raised before any proxy is constructed. -/
def ProxyList.getitem {P V E : Type} [DecidableEq V] (pl : ProxyList P V E)
    (idx : Idx V) : Except PropError E :=
  let idx1 := if pl.valid_set.isenum then
      match pl.valid_set.getitem idx with
      | some v => Idx.val v
      | none => idx
    else idx
  if pl.valid_set.memb idx1 then .ok (pl.proxy_cls pl.parent idx1)
  else .error (.outOfRange ("Index out of range. Must be in " ++
    pl.valid_set.descr ++ "."))

/-- `ProxyList.__iter__`: one freshly constructed proxy per member, in
domain order. The source's generator restarts from scratch on each call, so
iteration is modelled as this pure list. -/
def ProxyList.iter {P V E : Type} (pl : ProxyList P V E) : List E :=
  pl.valid_set.members.map (fun v => pl.proxy_cls pl.parent (Idx.val v))

/-- `ProxyList.__len__`: the size of the valid set. -/
def ProxyList.len {P V E : Type} (pl : ProxyList P V E) : ℕ :=
  pl.valid_set.members.length

/-! ## Concrete sample data for witnesses and counterexamples -/

/-- A two-variant sample enum. -/
inductive ABEnum where
  | a
  | b
deriving DecidableEq, Repr

/-- Wire value of each `ABEnum` variant. -/
def abValue : ABEnum → String
  | ABEnum.a => "A"
  | ABEnum.b => "B"

/-- The `EnumSpec` of the sample enum. -/
def abSpec : EnumSpec ABEnum :=
  ⟨[ABEnum.a, ABEnum.b], abValue, by decide⟩

/-! ## Claim C9: `assume_units` -/

/-- Claim C9: `assume_units(v, u)` returns `v` itself, with its existing
unit tag not overridden, whenever `v` is already a unit-tagged quantity;
otherwise it returns the quantity with magnitude `v` and unit `u`. -/
theorem assume_units_spec :
    (∀ (q : Quantity) (u : PhysUnit), assume_units (Value.qty q) u = q) ∧
    (∀ (q : Quantity) (u : PhysUnit), (assume_units (Value.qty q) u).unit = q.unit) ∧
    (∀ (x : ℚ) (u : PhysUnit), assume_units (Value.raw x) u = ⟨x, u⟩) :=
  ⟨fun _ _ => rfl, fun _ _ => rfl, fun _ _ => rfl⟩

/-! ## Claim C2: unitful round trip -/

/-- Claim C2: for every numeric value `v = m / 10 ^ k` (the exact-decimal
model of a Python float) and fixed unit `u`,
`decode(encode_unitful(v, u), u) = rescale(assume_units(v, u), u)`: writing
the value (coerced to `u`, rescaled, magnitude formatted) and reading the
token back (parsed as float, multiplied by `u`) yields exactly the rescaled
quantity. -/
theorem unitful_roundtrip (m : ℤ) (k : ℕ) (u : PhysUnit) :
    (unitful_encode (Value.raw ((m : ℚ) / 10 ^ k)) u).bind
        (fun t => unitful_decode t u)
      = rescale (assume_units (Value.raw ((m : ℚ) / 10 ^ k)) u) u := by
  set q : ℚ := (m : ℚ) / 10 ^ k with hqdef
  have hmag : q * u.scale / u.scale = q :=
    mul_div_cancel_right₀ q (ne_of_gt u.scale_pos)
  have hre : rescale (assume_units (Value.raw q) u) u = some ⟨q, u⟩ := by
    unfold assume_units rescale
    rw [if_pos rfl, hmag]
  have hden : q.den ∣ 10 ^ k := by
    have h1 : ((Rat.divInt m ((10 : ℤ) ^ k)).den : ℤ) ∣ (10 : ℤ) ^ k :=
      Rat.den_dvd m ((10 : ℤ) ^ k)
    have h2 : Rat.divInt m ((10 : ℤ) ^ k) = q := by
      rw [Rat.divInt_eq_div, hqdef]
      push_cast
      ring
    rw [h2] at h1
    have h3 : ((10 : ℤ)) ^ k = (((10 ^ k : ℕ) : ℤ)) := by push_cast; ring
    rw [h3] at h1
    exact_mod_cast h1
  have hfloat : pyFloat (fmtMag q) = some q := pyFloat_fmtMag q ⟨k, hden⟩
  rw [hre]
  unfold unitful_encode
  rw [hre]
  unfold unitful_decode
  simp [hfloat]

/-! ## Claim C1: bounded `int_property` validation -/

/-- Claim C1: with a valid set configured, the `int_property` setter raises
a ValidationError whose message lists the allowed set — and, the result
being an error rather than a call trace, issues no transport call — for any
value outside the set; for a member it formats the value and issues the
single send. -/
theorem int_property_validation (name : String) (vs : List ℤ) (v w : ℤ)
    (hv : v ∉ vs) (hw : w ∈ vs) :
    int_property_setter name (some vs) v =
      .error (.validationError (fmtD v ++
        " is not an allowed value for this property; must be one of " ++
        showIntSet vs ++ ".")) ∧
    int_property_setter name (some vs) w =
      .ok [Call.sendcmd (name ++ " " ++ fmtD w)] := by
  constructor
  · simp [int_property_setter, hv]
  · simp [int_property_setter, hw]

/-- Witness for C1 at a concrete descriptor: valid set `{1, 2, 3}`,
rejected value `5`, accepted value `2`. -/
theorem int_property_validation_witness :
    ((5 : ℤ) ∉ [(1 : ℤ), 2, 3]) ∧ ((2 : ℤ) ∈ [(1 : ℤ), 2, 3]) ∧
    (int_property_setter ("RANGE") (some [(1 : ℤ), 2, 3]) 5 =
      .error (.validationError (fmtD 5 ++
        " is not an allowed value for this property; must be one of " ++
        showIntSet [(1 : ℤ), 2, 3] ++ ".")) ∧
    int_property_setter ("RANGE") (some [(1 : ℤ), 2, 3]) 2 =
      .ok [Call.sendcmd ("RANGE" ++ " " ++ fmtD 2)]) :=
  ⟨by decide, by decide,
    int_property_validation ("RANGE") [(1 : ℤ), 2, 3] 5 2 (by decide) (by decide)⟩

/-! ## Claim C7: boolean round trip -/

/-- Counterexample to C7 as stated: it is not true for EVERY pair of
true/false literal strings — with the pair `("ON", "ON")`,
`decode(encode(False))` is `True`, not `False`. -/
theorem bool_roundtrip_counterexample :
    bool_property_decode ("ON") (bool_property_encode ("ON") ("ON") false) ≠ false := by
  decide

/-- Claim C7 (amended): for every boolean descriptor whose literals are
strip-invariant and whose false literal differs from the true literal,
`decode(encode(True)) = True` and `decode(encode(False)) = False`. -/
theorem bool_property_roundtrip (inst_true inst_false : String)
    (ht : pyStripS inst_true = inst_true) (hf : pyStripS inst_false = inst_false)
    (hne : inst_false ≠ inst_true) :
    bool_property_decode inst_true
        (bool_property_encode inst_true inst_false true) = true ∧
    bool_property_decode inst_true
        (bool_property_encode inst_true inst_false false) = false := by
  constructor
  · unfold bool_property_decode bool_property_encode
    simp [ht]
  · unfold bool_property_decode bool_property_encode
    simp [hf]
    exact hne

/-- Witness for the amended C7 at the descriptor `("ON", "OFF")`. -/
theorem bool_property_roundtrip_witness :
    (pyStripS ("ON") = "ON") ∧ (pyStripS ("OFF") = "OFF") ∧
    (bool_property_decode ("ON") (bool_property_encode ("ON") ("OFF") true) = true ∧
     bool_property_decode ("ON") (bool_property_encode ("ON") ("OFF") false) = false) :=
  ⟨by decide, by decide,
    bool_property_roundtrip ("ON") ("OFF") (by decide) (by decide) (by decide)⟩

/-! ## Claim C3: enum round trip -/

/-- Counterexample to C3 as stated: the round trip does NOT hold for every
optional decoration pair — with an output decoration that rewrites every
wire value to `"Z"` (and no input decoration), decoding the encoded variant
fails instead of returning the variant. -/
theorem enum_roundtrip_counterexample :
    enumDecode abSpec none (enumEncode abSpec (some (fun _ => "Z")) ABEnum.a) ≠
      some ABEnum.a := by
  decide

/-- Claim C3 (amended): for every variant of the closed enum set and every
optional decoration pair such that the input decoration recovers each wire
value from its stripped, output-decorated form (as absent/identity
decorations do on strip-invariant wire values), `decode(encode(e)) = e`. -/
theorem enum_property_roundtrip {V : Type} (E : EnumSpec V)
    (f_in f_out : Option (String → String)) (e : V) (he : e ∈ E.variants)
    (hdec : ∀ v ∈ E.variants,
      decor f_in (pyStripS (decor f_out (E.value v))) = E.value v) :
    enumDecode E f_in (enumEncode E f_out e) = some e := by
  unfold enumDecode enumEncode
  rw [hdec e he]
  unfold lookupByValue
  have hsome : (E.variants.find? (fun v => E.value v == E.value e)).isSome = true := by
    rw [List.find?_isSome]
    exact ⟨e, he, by simp⟩
  obtain ⟨v0, hv0⟩ := Option.isSome_iff_exists.mp hsome
  have hpred := List.find?_some hv0
  have hmem := List.mem_of_find?_eq_some hv0
  have hv0e : v0 = e := E.value_inj v0 hmem e he (by simpa using hpred)
  rw [hv0, hv0e]

/-- Witness for the amended C3: identity (absent) decorations on the sample
enum round-trip variant `a`. -/
theorem enum_property_roundtrip_witness :
    (ABEnum.a ∈ abSpec.variants) ∧
    enumDecode abSpec none (enumEncode abSpec none ABEnum.a) = some ABEnum.a :=
  ⟨by decide,
    enum_property_roundtrip abSpec none none ABEnum.a (by decide) (by decide)⟩

/-! ## Claim C4: getter whitespace handling -/

/-- Counterexample to C4 as stated: the `string_property` getter does NOT
trim whitespace — it slices the bookmark length off the raw response — so a
trailing newline changes the decoded value. -/
theorem string_getter_whitespace_counterexample :
    (∀ c ∈ ("\n" : String).data, c.isWhitespace = true) ∧
    string_property_decode ("\"") ("\"hello\"" ++ "\n") ≠
      string_property_decode ("\"") ("\"hello\"") := by
  exact ⟨by decide, by decide⟩

/-- Claim C4 (amended): for the boolean, enum, unitless-numeric,
bounded-integer and unitful-numeric codecs the decoded value is insensitive
to surrounding whitespace in the response (explicit strip for bool/enum,
whitespace-tolerant `float`/`int` parsing for the numeric codecs; the
unitless and unitful getters share `pyFloat`, the integer getter uses
`pyInt`); the string codec is excluded. -/
theorem getter_whitespace_insensitive (pre post r inst_true : String)
    {V : Type} (E : EnumSpec V) (f_in : Option (String → String))
    (h1 : ∀ c ∈ pre.data, c.isWhitespace = true)
    (h2 : ∀ c ∈ post.data, c.isWhitespace = true) :
    bool_property_decode inst_true (pre ++ r ++ post) =
      bool_property_decode inst_true r ∧
    enumDecode E f_in (pre ++ r ++ post) = enumDecode E f_in r ∧
    pyFloat (pre ++ r ++ post) = pyFloat r ∧
    pyInt (pre ++ r ++ post) = pyInt r := by
  have hdata : (pre ++ r ++ post).data = pre.data ++ r.data ++ post.data := rfl
  have hs : pyStrip (pre ++ r ++ post).data = pyStrip r.data := by
    rw [hdata]
    exact pyStrip_pad pre.data r.data post.data h1 h2
  have hss : pyStripS (pre ++ r ++ post) = pyStripS r := by
    unfold pyStripS
    rw [hs]
  refine ⟨?_, ?_, ?_, ?_⟩
  · unfold bool_property_decode
    rw [hss]
  · unfold enumDecode
    rw [hss]
  · unfold pyFloat
    rw [hs]
  · unfold pyInt
    rw [hs]

/-- Witness for the amended C4: a space before and a newline after the
response leave all four decoders' results unchanged. -/
theorem getter_whitespace_insensitive_witness :
    (∀ c ∈ (" " : String).data, c.isWhitespace = true) ∧
    (∀ c ∈ ("\n" : String).data, c.isWhitespace = true) ∧
    (bool_property_decode ("ON") (" " ++ "ON" ++ "\n") =
       bool_property_decode ("ON") ("ON") ∧
     enumDecode abSpec none (" " ++ "ON" ++ "\n") = enumDecode abSpec none ("ON") ∧
     pyFloat (" " ++ "ON" ++ "\n") = pyFloat ("ON") ∧
     pyInt (" " ++ "ON" ++ "\n") = pyInt ("ON")) :=
  ⟨by decide, by decide,
    getter_whitespace_insensitive (" ") ("\n") ("ON") ("ON") abSpec none
      (by decide) (by decide)⟩

/-! ## Claims C5, C6, C10: ProxyList -/

/-- Claim C5: over an enum-shaped domain, `get` with a variant's name string
and `get` with the variant itself return the same freshly constructed proxy
(the name is normalized through the enum lookup; a failed lookup on the
variant falls back to the variant as-is); any index that fails normalization
and is not a member yields the OutOfRange error naming the valid domain —
an error result, so no element is constructed. -/
theorem proxyList_enum_getitem {P V E : Type} [DecidableEq V]
    (pl : ProxyList P V E) (s : String) (v : V)
    (hen : pl.valid_set.isenum = true)
    (hname : pl.valid_set.getitem (Idx.name s) = some v)
    (hval : pl.valid_set.getitem (Idx.val v) = some v ∨
      pl.valid_set.getitem (Idx.val v) = none)
    (hmem : v ∈ pl.valid_set.members) :
    pl.getitem (Idx.name s) = .ok (pl.proxy_cls pl.parent (Idx.val v)) ∧
    pl.getitem (Idx.val v) = .ok (pl.proxy_cls pl.parent (Idx.val v)) ∧
    (∀ idx, pl.valid_set.getitem idx = none → pl.valid_set.memb idx = false →
      pl.getitem idx = .error (.outOfRange ("Index out of range. Must be in " ++
        pl.valid_set.descr ++ "."))) := by
  have hmemb : pl.valid_set.memb (Idx.val v) = true := by
    simp [ValidSet.memb, hmem]
  refine ⟨?_, ?_, ?_⟩
  · simp [ProxyList.getitem, hen, hname, hmemb]
  · rcases hval with h | h <;> simp [ProxyList.getitem, hen, h, hmemb]
  · intro idx hnone hmf
    simp [ProxyList.getitem, hen, hnone, hmf]

/-- Claim C6: `len` is the size of the index domain, iteration yields
exactly one freshly constructed proxy per member in domain order (position
`i` of the iteration is the constructor applied to member `i`). Iteration
is a pure function of the collection, so repeating it reproduces the same
sequence (the source's generator restarts from scratch and caches nothing). -/
theorem proxyList_iteration {P V E : Type} (pl : ProxyList P V E) :
    pl.len = pl.valid_set.members.length ∧
    pl.iter.length = pl.len ∧
    (∀ i : ℕ, pl.iter[i]? =
      (pl.valid_set.members[i]?).map (fun v => pl.proxy_cls pl.parent (Idx.val v))) := by
  refine ⟨rfl, by simp [ProxyList.iter, ProxyList.len], fun i => ?_⟩
  simp [ProxyList.iter, List.getElem?_map]

/-- Claim C10: when the domain class derives from `Enum`/`IntEnum` only
indirectly (neither appears among the DIRECT bases), the collection is not
classified as enum-shaped, so `get` skips name normalization: a valid
variant's name string raises OutOfRange even though the variant itself
succeeds. -/
theorem proxyList_indirect_enum {P V E : Type} [DecidableEq V]
    (pl : ProxyList P V E) (bs : List PyClass)
    (hb : pl.valid_set.bases = some bs)
    (h1 : PyClass.enumBase ∉ bs) (h2 : PyClass.intEnumBase ∉ bs)
    (v : V) (hmem : v ∈ pl.valid_set.members) (s : String) :
    pl.getitem (Idx.val v) = .ok (pl.proxy_cls pl.parent (Idx.val v)) ∧
    pl.getitem (Idx.name s) = .error (.outOfRange ("Index out of range. Must be in " ++
      pl.valid_set.descr ++ ".")) := by
  have hen : pl.valid_set.isenum = false := by
    simp [ValidSet.isenum, hb, h1, h2]
  constructor
  · simp [ProxyList.getitem, hen, ValidSet.memb, hmem]
  · simp [ProxyList.getitem, hen, ValidSet.memb]

/-- Name/value lookup of the sample enum class, in the shape the spec
describes for `flufl.enum` `__getitem__`: a variant's name string resolves
to the variant, a variant resolves to itself, anything else fails. -/
def abLookup : Idx ABEnum → Option ABEnum
  | Idx.name s => List.find? (fun v => abValue v == s) [ABEnum.a, ABEnum.b]
  | Idx.val v => some v

/-- The sample enum class as a `ProxyList` domain with `Enum` as a direct
base. -/
def abValidSet : ValidSet ABEnum :=
  ⟨[ABEnum.a, ABEnum.b], abLookup, some [PyClass.enumBase], "ABEnum"⟩

/-- A sample `ProxyList`: parent `7`, proxies are (parent, index) pairs. -/
def sampleProxyList : ProxyList ℕ ABEnum (ℕ × Idx ABEnum) :=
  ⟨7, fun p i => (p, i), abValidSet⟩

/-- Witness for C5 on the sample collection: `get("B")` and `get(B)` agree,
`get("Z")` is OutOfRange. -/
theorem proxyList_enum_getitem_witness :
    sampleProxyList.getitem (Idx.name ("B")) =
      .ok (sampleProxyList.proxy_cls sampleProxyList.parent (Idx.val ABEnum.b)) ∧
    sampleProxyList.getitem (Idx.val ABEnum.b) =
      .ok (sampleProxyList.proxy_cls sampleProxyList.parent (Idx.val ABEnum.b)) ∧
    sampleProxyList.getitem (Idx.name ("Z")) =
      .error (.outOfRange ("Index out of range. Must be in " ++
        sampleProxyList.valid_set.descr ++ ".")) := by
  have h := proxyList_enum_getitem sampleProxyList ("B") ABEnum.b (by decide)
    (by decide) (Or.inl (by decide)) (by decide)
  exact ⟨h.1, h.2.1, h.2.2 (Idx.name ("Z")) (by decide) (by decide)⟩

/-- The same sample domain, but deriving from `Enum` only indirectly: the
only direct base is an intermediate class. -/
def abIndirectSet : ValidSet ABEnum :=
  ⟨[ABEnum.a, ABEnum.b], abLookup, some [PyClass.otherClass ("MyEnumBase")], "ABEnum"⟩

/-- A sample `ProxyList` over the indirectly-derived enum class. -/
def sampleIndirectProxyList : ProxyList ℕ ABEnum (ℕ × Idx ABEnum) :=
  ⟨7, fun p i => (p, i), abIndirectSet⟩

/-- Witness for C10: on the indirectly-derived domain, `get(B)` succeeds but
`get("B")` — the name string of that same valid variant — is OutOfRange. -/
theorem proxyList_indirect_enum_witness :
    sampleIndirectProxyList.getitem (Idx.val ABEnum.b) =
      .ok (sampleIndirectProxyList.proxy_cls sampleIndirectProxyList.parent
        (Idx.val ABEnum.b)) ∧
    sampleIndirectProxyList.getitem (Idx.name ("B")) =
      .error (.outOfRange ("Index out of range. Must be in " ++
        sampleIndirectProxyList.valid_set.descr ++ ".")) :=
  proxyList_indirect_enum sampleIndirectProxyList [PyClass.otherClass ("MyEnumBase")]
    rfl (by decide) (by decide) ABEnum.b (by decide) ("B")

/-! ## Claim C8: one transport call per access -/

/-- Claim C8: for every codec, one getter call issues exactly one `query`
with text `name ++ "?"` and no send; one setter call on a valid value issues
exactly one `sendcmd` with text `name ++ " " ++ token` (the codec-encoded
token) and no query. -/
theorem one_call_per_access (name resp inst_true inst_false bookmark s : String)
    {V : Type} (E : EnumSpec V) (f_in f_out : Option (String → String)) (e : V)
    (b : Bool) (x : ℚ) (n : ℤ) (vs : List ℤ) (hn : n ∈ vs) (vv : Value)
    (u : PhysUnit) (hdim : (assume_units vv u).unit.dim = u.dim) :
    (bool_property_getter name inst_true resp).2 = [Call.query (name ++ "?")] ∧
    bool_property_setter name inst_true inst_false b =
      [Call.sendcmd (name ++ " " ++ bool_property_encode inst_true inst_false b)] ∧
    (enum_property_getter E f_in name resp).2 = [Call.query (name ++ "?")] ∧
    enum_property_setter E f_out name e =
      [Call.sendcmd (name ++ " " ++ enumEncode E f_out e)] ∧
    (unitless_property_getter name resp).2 = [Call.query (name ++ "?")] ∧
    unitless_property_setter name x = [Call.sendcmd (name ++ " " ++ fmtMag x)] ∧
    (int_property_getter name resp).2 = [Call.query (name ++ "?")] ∧
    int_property_setter name none n = .ok [Call.sendcmd (name ++ " " ++ fmtD n)] ∧
    int_property_setter name (some vs) n =
      .ok [Call.sendcmd (name ++ " " ++ fmtD n)] ∧
    (unitful_property_getter name u resp).2 = [Call.query (name ++ "?")] ∧
    unitful_property_setter name u vv =
      some [Call.sendcmd (name ++ " " ++
        fmtMag ((assume_units vv u).mag * (assume_units vv u).unit.scale / u.scale))] ∧
    (string_property_getter name bookmark resp).2 = [Call.query (name ++ "?")] ∧
    string_property_setter name bookmark s =
      [Call.sendcmd (name ++ " " ++ (bookmark ++ s ++ bookmark))] := by
  refine ⟨rfl, rfl, rfl, rfl, rfl, rfl, rfl, rfl, ?_, rfl, ?_, rfl, rfl⟩
  · simp [int_property_setter, hn]
  · unfold unitful_property_setter rescale
    rw [if_pos hdim]
    rfl

/-- A sample unit: base dimension, unit scale. -/
def sampleUnit : PhysUnit :=
  ⟨0, 1, by norm_num⟩

/-- Witness for C8 with every descriptor made concrete. -/
theorem one_call_per_access_witness :
    ((2 : ℤ) ∈ [(1 : ℤ), 2, 3]) ∧
    ((assume_units (Value.raw 0) sampleUnit).unit.dim = sampleUnit.dim) ∧
    ((bool_property_getter ("FREQ") ("ON") ("1")).2 = [Call.query ("FREQ" ++ "?")] ∧
     bool_property_setter ("FREQ") ("ON") ("OFF") true =
       [Call.sendcmd ("FREQ" ++ " " ++ bool_property_encode ("ON") ("OFF") true)] ∧
     (enum_property_getter abSpec none ("FREQ") ("1")).2 =
       [Call.query ("FREQ" ++ "?")] ∧
     enum_property_setter abSpec none ("FREQ") ABEnum.a =
       [Call.sendcmd ("FREQ" ++ " " ++ enumEncode abSpec none ABEnum.a)] ∧
     (unitless_property_getter ("FREQ") ("1")).2 = [Call.query ("FREQ" ++ "?")] ∧
     unitless_property_setter ("FREQ") 0 =
       [Call.sendcmd ("FREQ" ++ " " ++ fmtMag 0)] ∧
     (int_property_getter ("FREQ") ("1")).2 = [Call.query ("FREQ" ++ "?")] ∧
     int_property_setter ("FREQ") none 2 =
       .ok [Call.sendcmd ("FREQ" ++ " " ++ fmtD 2)] ∧
     int_property_setter ("FREQ") (some [(1 : ℤ), 2, 3]) 2 =
       .ok [Call.sendcmd ("FREQ" ++ " " ++ fmtD 2)] ∧
     (unitful_property_getter ("FREQ") sampleUnit ("1")).2 =
       [Call.query ("FREQ" ++ "?")] ∧
     unitful_property_setter ("FREQ") sampleUnit (Value.raw 0) =
       some [Call.sendcmd ("FREQ" ++ " " ++
         fmtMag ((assume_units (Value.raw 0) sampleUnit).mag *
           (assume_units (Value.raw 0) sampleUnit).unit.scale / sampleUnit.scale))] ∧
     (string_property_getter ("FREQ") ("\"") ("1")).2 =
       [Call.query ("FREQ" ++ "?")] ∧
     string_property_setter ("FREQ") ("\"") ("hi") =
       [Call.sendcmd ("FREQ" ++ " " ++ ("\"" ++ "hi" ++ "\""))]) :=
  ⟨by decide, rfl,
    one_call_per_access ("FREQ") ("1") ("ON") ("OFF") ("\"") ("hi") abSpec none none
      ABEnum.a true 0 2 [(1 : ℤ), 2, 3] (by decide) (Value.raw 0) sampleUnit rfl⟩

end InstrumentKit
